import Mathlib

/-!
Verification development for the rusm64 two-pass 6502 assembler.

The definitions below are a shallow embedding of the assembler core:
`src/ast/mod.rs` (the flat-string IR actually consumed by the assembler),
`src/assembler/opcodes.rs` (the opcode table) and `src/assembler/mod.rs`
(the `Assembler` state machine).  Machine integers (`usize`, `u8`) are
modelled as `Nat` with explicit `% 256` / `% 65536` truncation at the
points where the source casts; the fallible Rust functions returning
`Result<_, AssemblerError>` become `Except AsmError _`.  The one unbounded
recursion of the source (`Assembler::parse_value` re-entering itself on
constant substitution) is made structural with an explicit fuel argument;
exhausted fuel is reported with the model-only marker `AsmError.outOfFuel`,
so `= .error .outOfFuel` for every fuel is the model's rendering of
non-termination.
-/

namespace Rusm

/-- The 6502 mnemonic set of `ast/mod.rs` (`enum Opcode`): 55 documented
mnemonics, 8 undocumented ones and the synthetic HCF. -/
inductive Opcode
  | LDA | LDX | LDY | STA | STX | STY
  | TAX | TAY | TSX | TXA | TXS | TYA
  | PHA | PHP | PLA | PLP
  | AND | EOR | ORA | BIT
  | ADC | SBC | CMP | CPX | CPY
  | INC | INX | INY | DEC | DEX | DEY
  | ASL | LSR | ROL | ROR
  | JMP | JSR | RTS | RTI
  | BCC | BCS | BEQ | BMI | BNE | BPL | BVC | BVS
  | CLC | CLD | CLI | CLV | SEC | SED | SEI
  | NOP
  | SLO | RLA | SRE | RRA | SAX | LAX | DCP | ISC
  | HCF
deriving DecidableEq, Repr

/-- The thirteen addressing modes of `ast/mod.rs` (`enum AddressingMode`). -/
inductive AddressingMode
  | Implied | Accumulator | Immediate
  | ZeroPage | ZeroPageX | ZeroPageY
  | Absolute | AbsoluteX | AbsoluteY
  | Indirect | IndexedIndirect | IndirectIndexed
  | Relative
deriving DecidableEq, Repr

/-- Rust `String`/`&str` values are modelled as their character lists, so
that every string operation in the model is structurally recursive and
kernel-computable (the ASCII texts the assembler manipulates make the
byte/char distinction immaterial). -/
abbrev Str := List Char

/-- Convenience injection of a Lean string literal into the model's `Str`. -/
def str (s : String) : Str := s.toList

/-- Does the string start with the character `c` (Rust `starts_with(c)`)? -/
def startsWithChar (c : Char) : Str → Bool
  | [] => false
  | x :: _ => x == c

/-- Does the string end with the character `c` (Rust `ends_with(c)`)? -/
def endsWithChar (c : Char) : Str → Bool
  | s => match s.getLast? with
    | some x => x == c
    | none => false

/-- Surface-syntactic operand (`enum Operand` of `ast/mod.rs`); each variant
carries the raw operand text produced by `Operand::parse`. -/
inductive Operand
  | Immediate (s : Str)
  | Address (s : Str)
  | IndexedX (s : Str)
  | IndexedY (s : Str)
  | Indirect (s : Str)
  | IndexedIndirect (s : Str)
  | IndirectIndexed (s : Str)
deriving DecidableEq, Repr

/-- `impl fmt::Display for Operand` of `ast/mod.rs`: re-serialize the
operand exactly as the assembler's `operand.to_string()` calls see it
(`#v`, `a`, `a,X`, `a,Y`, `(a)`, `(a,X)`, `(a,Y)`). -/
def Operand.toString : Operand → Str
  | .Immediate v => '#' :: v
  | .Address a => a
  | .IndexedX a => a ++ [',', 'X']
  | .IndexedY a => a ++ [',', 'Y']
  | .Indirect a => '(' :: a ++ [')']
  | .IndexedIndirect a => '(' :: a ++ [',', 'X', ')']
  | .IndirectIndexed a => '(' :: a ++ [',', 'Y', ')']

/-- `struct Instruction` of `ast/mod.rs`. -/
structure Instruction where
  opcode : Opcode
  operand : Option Operand
deriving DecidableEq, Repr

/-- `struct Directive` of `ast/mod.rs`: a name (without the leading dot)
and a raw argument string. -/
structure Directive where
  name : Str
  value : Str
deriving DecidableEq, Repr

/-- `struct Ast` of `ast/mod.rs`.  The Rust struct keeps
`labels : HashMap<String, Label>` and `constants : HashMap<String, String>`;
the assembler only ever reads the label *names* (the `Label::position`
field is never consulted), so labels are modelled as the list of distinct
key names and constants as an association list with distinct keys. -/
structure Ast where
  instructions : List Instruction
  labels : List Str
  constants : List (Str × Str)
  directives : List Directive
deriving DecidableEq, Repr

/-- The empty `Ast` (`Ast::new` / `Ast::default`). -/
def Ast.empty : Ast := ⟨[], [], [], []⟩

/-- `Ast::add_label`: a `HashMap::insert` keyed by the label's name, so a
second definition of the same name silently replaces the first and the
key set is unchanged. -/
def Ast.add_label (a : Ast) (name : Str) : Ast :=
  if a.labels.contains name then a else { a with labels := a.labels ++ [name] }

/-- `Ast::add_instruction`. -/
def Ast.add_instruction (a : Ast) (i : Instruction) : Ast :=
  { a with instructions := a.instructions ++ [i] }

/-- `Ast::add_directive`. -/
def Ast.add_directive (a : Ast) (d : Directive) : Ast :=
  { a with directives := a.directives ++ [d] }

/-- The `matches!` test opening `Operand::get_addressing_mode`: is the
opcode one of the eight conditional branches? -/
def Opcode.is_branch : Opcode → Bool
  | .BCC | .BCS | .BEQ | .BMI | .BNE | .BPL | .BVC | .BVS => true
  | _ => false

/-- `Operand::get_addressing_mode` of `ast/mod.rs`.  Branch opcodes are
always Relative; otherwise the choice between the zero-page and absolute
families is purely syntactic: the operand text must start with `$` and be
at most 3 characters long (`addr.starts_with('$') && addr.len() <= 3`). -/
def Operand.get_addressing_mode (o : Operand) (opcode : Opcode) : AddressingMode :=
  if opcode.is_branch then .Relative
  else
    match o with
    | .Immediate _ => .Immediate
    | .Address addr =>
      if startsWithChar '$' addr ∧ addr.length ≤ 3 then .ZeroPage else .Absolute
    | .IndexedX addr =>
      if startsWithChar '$' addr ∧ addr.length ≤ 3 then .ZeroPageX else .AbsoluteX
    | .IndexedY addr =>
      if startsWithChar '$' addr ∧ addr.length ≤ 3 then .ZeroPageY else .AbsoluteY
    | .Indirect _ => .Indirect
    | .IndexedIndirect _ => .IndexedIndirect
    | .IndirectIndexed _ => .IndirectIndexed

/-- `struct OpcodeEntry` of `assembler/opcodes.rs`: opcode byte, total
instruction size in bytes, and cycle count. -/
structure OpcodeEntry where
  byte : Nat
  size : Nat
  cycles : Nat
deriving DecidableEq, Repr

def opcodeRows0 : List ((Opcode × AddressingMode) × OpcodeEntry) :=
  [ ((.LDA, .Immediate), ⟨0xA9, 2, 2⟩),
    ((.LDA, .ZeroPage), ⟨0xA5, 2, 3⟩),
    ((.LDA, .ZeroPageX), ⟨0xB5, 2, 4⟩),
    ((.LDA, .Absolute), ⟨0xAD, 3, 4⟩),
    ((.LDA, .AbsoluteX), ⟨0xBD, 3, 4⟩),
    ((.LDA, .AbsoluteY), ⟨0xB9, 3, 4⟩),
    ((.LDA, .IndexedIndirect), ⟨0xA1, 2, 6⟩),
    ((.LDA, .IndirectIndexed), ⟨0xB1, 2, 5⟩),
    ((.LDX, .Immediate), ⟨0xA2, 2, 2⟩),
    ((.LDX, .ZeroPage), ⟨0xA6, 2, 3⟩),
    ((.LDX, .ZeroPageY), ⟨0xB6, 2, 4⟩),
    ((.LDX, .Absolute), ⟨0xAE, 3, 4⟩),
    ((.LDX, .AbsoluteY), ⟨0xBE, 3, 4⟩),
    ((.LDY, .Immediate), ⟨0xA0, 2, 2⟩),
    ((.LDY, .ZeroPage), ⟨0xA4, 2, 3⟩),
    ((.LDY, .ZeroPageX), ⟨0xB4, 2, 4⟩),
    ((.LDY, .Absolute), ⟨0xAC, 3, 4⟩),
    ((.LDY, .AbsoluteX), ⟨0xBC, 3, 4⟩),
    ((.STA, .ZeroPage), ⟨0x85, 2, 3⟩),
    ((.STA, .ZeroPageX), ⟨0x95, 2, 4⟩) ]

def opcodeRows1 : List ((Opcode × AddressingMode) × OpcodeEntry) :=
  [ ((.STA, .Absolute), ⟨0x8D, 3, 4⟩),
    ((.STA, .AbsoluteX), ⟨0x9D, 3, 5⟩),
    ((.STA, .AbsoluteY), ⟨0x99, 3, 5⟩),
    ((.STA, .IndexedIndirect), ⟨0x81, 2, 6⟩),
    ((.STA, .IndirectIndexed), ⟨0x91, 2, 6⟩),
    ((.STX, .ZeroPage), ⟨0x86, 2, 3⟩),
    ((.STX, .ZeroPageY), ⟨0x96, 2, 4⟩),
    ((.STX, .Absolute), ⟨0x8E, 3, 4⟩),
    ((.STY, .ZeroPage), ⟨0x84, 2, 3⟩),
    ((.STY, .ZeroPageX), ⟨0x94, 2, 4⟩),
    ((.STY, .Absolute), ⟨0x8C, 3, 4⟩),
    ((.TAX, .Implied), ⟨0xAA, 1, 2⟩),
    ((.TAY, .Implied), ⟨0xA8, 1, 2⟩),
    ((.TSX, .Implied), ⟨0xBA, 1, 2⟩),
    ((.TXA, .Implied), ⟨0x8A, 1, 2⟩),
    ((.TXS, .Implied), ⟨0x9A, 1, 2⟩),
    ((.TYA, .Implied), ⟨0x98, 1, 2⟩),
    ((.PHA, .Implied), ⟨0x48, 1, 3⟩),
    ((.PHP, .Implied), ⟨0x08, 1, 3⟩),
    ((.PLA, .Implied), ⟨0x68, 1, 4⟩) ]

def opcodeRows2 : List ((Opcode × AddressingMode) × OpcodeEntry) :=
  [ ((.PLP, .Implied), ⟨0x28, 1, 4⟩),
    ((.AND, .Immediate), ⟨0x29, 2, 2⟩),
    ((.AND, .ZeroPage), ⟨0x25, 2, 3⟩),
    ((.AND, .ZeroPageX), ⟨0x35, 2, 4⟩),
    ((.AND, .Absolute), ⟨0x2D, 3, 4⟩),
    ((.AND, .AbsoluteX), ⟨0x3D, 3, 4⟩),
    ((.AND, .AbsoluteY), ⟨0x39, 3, 4⟩),
    ((.AND, .IndexedIndirect), ⟨0x21, 2, 6⟩),
    ((.AND, .IndirectIndexed), ⟨0x31, 2, 5⟩),
    ((.EOR, .Immediate), ⟨0x49, 2, 2⟩),
    ((.EOR, .ZeroPage), ⟨0x45, 2, 3⟩),
    ((.EOR, .ZeroPageX), ⟨0x55, 2, 4⟩),
    ((.EOR, .Absolute), ⟨0x4D, 3, 4⟩),
    ((.EOR, .AbsoluteX), ⟨0x5D, 3, 4⟩),
    ((.EOR, .AbsoluteY), ⟨0x59, 3, 4⟩),
    ((.EOR, .IndexedIndirect), ⟨0x41, 2, 6⟩),
    ((.EOR, .IndirectIndexed), ⟨0x51, 2, 5⟩),
    ((.ORA, .Immediate), ⟨0x09, 2, 2⟩),
    ((.ORA, .ZeroPage), ⟨0x05, 2, 3⟩),
    ((.ORA, .ZeroPageX), ⟨0x15, 2, 4⟩) ]

def opcodeRows3 : List ((Opcode × AddressingMode) × OpcodeEntry) :=
  [ ((.ORA, .Absolute), ⟨0x0D, 3, 4⟩),
    ((.ORA, .AbsoluteX), ⟨0x1D, 3, 4⟩),
    ((.ORA, .AbsoluteY), ⟨0x19, 3, 4⟩),
    ((.ORA, .IndexedIndirect), ⟨0x01, 2, 6⟩),
    ((.ORA, .IndirectIndexed), ⟨0x11, 2, 5⟩),
    ((.BIT, .ZeroPage), ⟨0x24, 2, 3⟩),
    ((.BIT, .Absolute), ⟨0x2C, 3, 4⟩),
    ((.ADC, .Immediate), ⟨0x69, 2, 2⟩),
    ((.ADC, .ZeroPage), ⟨0x65, 2, 3⟩),
    ((.ADC, .ZeroPageX), ⟨0x75, 2, 4⟩),
    ((.ADC, .Absolute), ⟨0x6D, 3, 4⟩),
    ((.ADC, .AbsoluteX), ⟨0x7D, 3, 4⟩),
    ((.ADC, .AbsoluteY), ⟨0x79, 3, 4⟩),
    ((.ADC, .IndexedIndirect), ⟨0x61, 2, 6⟩),
    ((.ADC, .IndirectIndexed), ⟨0x71, 2, 5⟩),
    ((.SBC, .Immediate), ⟨0xE9, 2, 2⟩),
    ((.SBC, .ZeroPage), ⟨0xE5, 2, 3⟩),
    ((.SBC, .ZeroPageX), ⟨0xF5, 2, 4⟩),
    ((.SBC, .Absolute), ⟨0xED, 3, 4⟩),
    ((.SBC, .AbsoluteX), ⟨0xFD, 3, 4⟩) ]

def opcodeRows4 : List ((Opcode × AddressingMode) × OpcodeEntry) :=
  [ ((.SBC, .AbsoluteY), ⟨0xF9, 3, 4⟩),
    ((.SBC, .IndexedIndirect), ⟨0xE1, 2, 6⟩),
    ((.SBC, .IndirectIndexed), ⟨0xF1, 2, 5⟩),
    ((.CMP, .Immediate), ⟨0xC9, 2, 2⟩),
    ((.CMP, .ZeroPage), ⟨0xC5, 2, 3⟩),
    ((.CMP, .ZeroPageX), ⟨0xD5, 2, 4⟩),
    ((.CMP, .Absolute), ⟨0xCD, 3, 4⟩),
    ((.CMP, .AbsoluteX), ⟨0xDD, 3, 4⟩),
    ((.CMP, .AbsoluteY), ⟨0xD9, 3, 4⟩),
    ((.CMP, .IndexedIndirect), ⟨0xC1, 2, 6⟩),
    ((.CMP, .IndirectIndexed), ⟨0xD1, 2, 5⟩),
    ((.CPX, .Immediate), ⟨0xE0, 2, 2⟩),
    ((.CPX, .ZeroPage), ⟨0xE4, 2, 3⟩),
    ((.CPX, .Absolute), ⟨0xEC, 3, 4⟩),
    ((.CPY, .Immediate), ⟨0xC0, 2, 2⟩),
    ((.CPY, .ZeroPage), ⟨0xC4, 2, 3⟩),
    ((.CPY, .Absolute), ⟨0xCC, 3, 4⟩),
    ((.INC, .ZeroPage), ⟨0xE6, 2, 5⟩),
    ((.INC, .ZeroPageX), ⟨0xF6, 2, 6⟩),
    ((.INC, .Absolute), ⟨0xEE, 3, 6⟩) ]

def opcodeRows5 : List ((Opcode × AddressingMode) × OpcodeEntry) :=
  [ ((.INC, .AbsoluteX), ⟨0xFE, 3, 7⟩),
    ((.INX, .Implied), ⟨0xE8, 1, 2⟩),
    ((.INY, .Implied), ⟨0xC8, 1, 2⟩),
    ((.DEC, .ZeroPage), ⟨0xC6, 2, 5⟩),
    ((.DEC, .ZeroPageX), ⟨0xD6, 2, 6⟩),
    ((.DEC, .Absolute), ⟨0xCE, 3, 6⟩),
    ((.DEC, .AbsoluteX), ⟨0xDE, 3, 7⟩),
    ((.DEX, .Implied), ⟨0xCA, 1, 2⟩),
    ((.DEY, .Implied), ⟨0x88, 1, 2⟩),
    ((.ASL, .Accumulator), ⟨0x0A, 1, 2⟩),
    ((.ASL, .ZeroPage), ⟨0x06, 2, 5⟩),
    ((.ASL, .ZeroPageX), ⟨0x16, 2, 6⟩),
    ((.ASL, .Absolute), ⟨0x0E, 3, 6⟩),
    ((.ASL, .AbsoluteX), ⟨0x1E, 3, 7⟩),
    ((.LSR, .Accumulator), ⟨0x4A, 1, 2⟩),
    ((.LSR, .ZeroPage), ⟨0x46, 2, 5⟩),
    ((.LSR, .ZeroPageX), ⟨0x56, 2, 6⟩),
    ((.LSR, .Absolute), ⟨0x4E, 3, 6⟩),
    ((.LSR, .AbsoluteX), ⟨0x5E, 3, 7⟩),
    ((.ROL, .Accumulator), ⟨0x2A, 1, 2⟩) ]

def opcodeRows6 : List ((Opcode × AddressingMode) × OpcodeEntry) :=
  [ ((.ROL, .ZeroPage), ⟨0x26, 2, 5⟩),
    ((.ROL, .ZeroPageX), ⟨0x36, 2, 6⟩),
    ((.ROL, .Absolute), ⟨0x2E, 3, 6⟩),
    ((.ROL, .AbsoluteX), ⟨0x3E, 3, 7⟩),
    ((.ROR, .Accumulator), ⟨0x6A, 1, 2⟩),
    ((.ROR, .ZeroPage), ⟨0x66, 2, 5⟩),
    ((.ROR, .ZeroPageX), ⟨0x76, 2, 6⟩),
    ((.ROR, .Absolute), ⟨0x6E, 3, 6⟩),
    ((.ROR, .AbsoluteX), ⟨0x7E, 3, 7⟩),
    ((.JMP, .Absolute), ⟨0x4C, 3, 3⟩),
    ((.JMP, .Indirect), ⟨0x6C, 3, 5⟩),
    ((.JSR, .Absolute), ⟨0x20, 3, 6⟩),
    ((.RTS, .Implied), ⟨0x60, 1, 6⟩),
    ((.RTI, .Implied), ⟨0x40, 1, 6⟩),
    ((.BCC, .Relative), ⟨0x90, 2, 2⟩),
    ((.BCS, .Relative), ⟨0xB0, 2, 2⟩),
    ((.BEQ, .Relative), ⟨0xF0, 2, 2⟩),
    ((.BMI, .Relative), ⟨0x30, 2, 2⟩),
    ((.BNE, .Relative), ⟨0xD0, 2, 2⟩),
    ((.BPL, .Relative), ⟨0x10, 2, 2⟩) ]

def opcodeRows7 : List ((Opcode × AddressingMode) × OpcodeEntry) :=
  [ ((.BVC, .Relative), ⟨0x50, 2, 2⟩),
    ((.BVS, .Relative), ⟨0x70, 2, 2⟩),
    ((.CLC, .Implied), ⟨0x18, 1, 2⟩),
    ((.CLD, .Implied), ⟨0xD8, 1, 2⟩),
    ((.CLI, .Implied), ⟨0x58, 1, 2⟩),
    ((.CLV, .Implied), ⟨0xB8, 1, 2⟩),
    ((.SEC, .Implied), ⟨0x38, 1, 2⟩),
    ((.SED, .Implied), ⟨0xF8, 1, 2⟩),
    ((.SEI, .Implied), ⟨0x78, 1, 2⟩),
    ((.NOP, .Implied), ⟨0xEA, 1, 2⟩),
    ((.SLO, .ZeroPage), ⟨0x07, 2, 5⟩),
    ((.RLA, .ZeroPage), ⟨0x27, 2, 5⟩),
    ((.SRE, .ZeroPage), ⟨0x47, 2, 5⟩),
    ((.RRA, .ZeroPage), ⟨0x67, 2, 5⟩),
    ((.SAX, .ZeroPage), ⟨0x87, 2, 3⟩),
    ((.LAX, .ZeroPage), ⟨0xA7, 2, 3⟩),
    ((.DCP, .ZeroPage), ⟨0xC7, 2, 5⟩),
    ((.ISC, .ZeroPage), ⟨0xE7, 2, 5⟩) ]

/-- `build_opcode_table` of `assembler/opcodes.rs`, transcribed row by row
(split into chunks purely to keep elaboration fast).  The Rust function
fills a `HashMap<(Opcode, AddressingMode), OpcodeEntry>`; every inserted
key is distinct, so an association list in insertion order is an exact
model. -/
def build_opcode_table : List ((Opcode × AddressingMode) × OpcodeEntry) :=
  opcodeRows0 ++ opcodeRows1 ++ opcodeRows2 ++ opcodeRows3 ++ opcodeRows4 ++ opcodeRows5 ++ opcodeRows6 ++ opcodeRows7

/-- Lookup in the opcode table (the `OPCODE_TABLE.get(&(opcode, addr_mode))`
of `Assembler::get_opcode_byte`). -/
def getOpcodeEntry (opcode : Opcode) (mode : AddressingMode) : Option OpcodeEntry :=
  match build_opcode_table.find? (fun e => e.1.1 == opcode && e.1.2 == mode) with
  | some e => some e.2
  | none => none

/-- The error kinds of `enum AssemblerError` in `assembler/mod.rs`, plus the
model-only `outOfFuel` marker (see the header comment).  The Rust variants
carry diagnostic message strings (and `SourceLineError` a line number, which
stays 0 because `set_line_number` is never called inside `assemble`); the
messages do not influence control flow and are dropped here. -/
inductive AsmError
  | unknownOpcode
  | invalidAddressingMode
  | unknownLabel
  | unknownDirective
  | valueOutOfRange
  | parse
  | symbolResolution
  | forwardReference
  | duplicateLabel
  | invalidExpression
  | sourceLineError
  | outOfFuel
deriving DecidableEq, Repr

/-- The mutable fields of `struct Assembler` that the assembly passes touch.
`labels` models the `HashMap<String, usize>` as an association list with
distinct keys; `unresolved_refs` keeps its `(position, label, is_relative)`
triples in push order.  The `unresolved_expressions` field of the source is
declared but never written or read, and `line_number`/`verbose`/`ast` only
affect diagnostics, so they are not part of the state. -/
structure Asm where
  pc : Nat
  binary : List Nat
  labels : List (Str × Nat)
  unresolved_refs : List (Nat × Str × Bool)
  origin : Nat
deriving DecidableEq, Repr

/-- `Assembler::new()`: default origin `$1000`. -/
def Asm.new : Asm := ⟨0, [], [], [], 0x1000⟩

/-- `HashMap::get` on the label map. -/
def mapGet (m : List (Str × Nat)) (k : Str) : Option Nat :=
  match m.find? (fun p => p.1 == k) with
  | some p => some p.2
  | none => none

/-- `HashMap::insert` on the label map: replace the binding if the key is
present, append it otherwise. -/
def mapInsert (m : List (Str × Nat)) (k : Str) (v : Nat) : List (Str × Nat) :=
  if m.any (fun p => p.1 == k) then
    m.map (fun p => if p.1 == k then (k, v) else p)
  else m ++ [(k, v)]

/-- One digit of `usize::from_str_radix(s, 16)`. -/
def hexDigitVal (c : Char) : Option Nat :=
  if c.isDigit then some (c.toNat - 48)
  else if 'a' ≤ c ∧ c ≤ 'f' then some (c.toNat - 97 + 10)
  else if 'A' ≤ c ∧ c ≤ 'F' then some (c.toNat - 65 + 10)
  else none

/-- One digit of `usize::from_str_radix(s, 2)`. -/
def binDigitVal (c : Char) : Option Nat :=
  if c = '0' then some 0 else if c = '1' then some 1 else none

/-- Digit-list accumulator used by `fromStrRadix`. -/
def radixAccum (dv : Char → Option Nat) (radix : Nat) : Nat → List Char → Option Nat
  | acc, [] => some acc
  | acc, c :: cs =>
    match dv c with
    | some d => radixAccum dv radix (acc * radix + d) cs
    | none => none

/-- `usize::from_str_radix`: an optional leading `+`, then at least one
digit of the radix.  (Overflow cannot occur in the `Nat` model; none of the
verified inputs approach `usize::MAX`.) -/
def fromStrRadix (dv : Char → Option Nat) (radix : Nat) (s : Str) : Option Nat :=
  let cs := match s with
    | '+' :: rest => rest
    | cs => cs
  match cs with
  | [] => none
  | _ => radixAccum dv radix 0 cs

/-- `str::parse::<usize>` applied to a string of decimal digits. -/
def decValue (s : Str) : Nat :=
  s.foldl (fun a c => a * 10 + (c.toNat - 48)) 0

/-- Rust `trim_start_matches(c)`: drop every leading occurrence of `c`. -/
def dropLeadingChar (c : Char) (s : Str) : Str :=
  s.dropWhile (fun x => x == c)

/-- Rust `trim_end_matches(c)`: drop every trailing occurrence of `c`. -/
def dropTrailingChar (c : Char) (s : Str) : Str :=
  (s.reverse.dropWhile (fun x => x == c)).reverse

/-- Rust `s.split(sep)` for a one-character separator: every maximal
(possibly empty) piece between occurrences of `sep`, in order. -/
def splitOnChar (sep : Char) (s : Str) : List Str :=
  s.foldr
    (fun c acc =>
      match acc with
      | cur :: rest => if c == sep then [] :: cur :: rest else (c :: cur) :: rest
      | [] => [[c]])
    [[]]

/-- Rust `str::trim`: remove leading and trailing whitespace. -/
def trimChars (s : Str) : Str :=
  ((s.dropWhile Char.isWhitespace).reverse.dropWhile Char.isWhitespace).reverse

/-- Rust `s.split(',').next().unwrap_or("")`: the text before the first
comma (the whole string if there is none). -/
def firstCommaField (s : Str) : Str :=
  (splitOnChar ',' s).headD []

/-- `Assembler::parse_value` of `assembler/mod.rs`.  In source order: a
`"…"` string literal yields its first byte, `$`/`%` prefixes select hex and
binary, an all-digit string is decimal (the empty string falls into this
branch and fails to parse, as in Rust), then the label map, then constant
substitution — which recursively re-parses the constant's value and is the
source's unbounded recursion, bounded here by `fuel` — and finally an
unknown name records `(pc, name, false)` in `unresolved_refs` and yields
the placeholder 0. -/
def parse_value (ast : Ast) : Nat → Asm → Str → Except AsmError (Nat × Asm)
  | 0, _, _ => .error .outOfFuel
  | fuel + 1, st, value =>
    if startsWithChar '"' value ∧ endsWithChar '"' value then
      match (value.drop 1).dropLast with
      | [] => .error .parse
      | c :: _ => .ok (c.toNat, st)
    else if startsWithChar '$' value then
      match fromStrRadix hexDigitVal 16 (value.drop 1) with
      | some n => .ok (n, st)
      | none => .error .parse
    else if startsWithChar '%' value then
      match fromStrRadix binDigitVal 2 (value.drop 1) with
      | some n => .ok (n, st)
      | none => .error .parse
    else if value.all Char.isDigit then
      if value = [] then .error .parse else .ok (decValue value, st)
    else
      match mapGet st.labels value with
      | some addr => .ok (addr, st)
      | none =>
        match ast.constants.find? (fun p => p.1 == value) with
        | some p => parse_value ast fuel st p.2
        | none =>
          .ok (0, { st with unresolved_refs := st.unresolved_refs ++ [(st.pc, value, false)] })

/-- The per-mode operand sizes of `Assembler::instruction_size` (the match
on the addressing mode, including the opcode byte). -/
def mode_size : AddressingMode → Nat
  | .Implied | .Accumulator => 1
  | .Immediate | .ZeroPage | .ZeroPageX | .ZeroPageY
  | .Relative | .IndexedIndirect | .IndirectIndexed => 2
  | .Absolute | .AbsoluteX | .AbsoluteY | .Indirect => 3

/-- `Assembler::instruction_size`.  The Rust signature returns `Result` but
every match arm is `Ok`, so the model is total. -/
def instruction_size (instr : Instruction) : Nat :=
  match instr.operand with
  | some operand => mode_size (operand.get_addressing_mode instr.opcode)
  | none => 1

/-- `Assembler::get_opcode_byte`: table lookup, `InvalidAddressingMode` on
a missing entry. -/
def get_opcode_byte (opcode : Opcode) (addr_mode : AddressingMode) : Except AsmError Nat :=
  match getOpcodeEntry opcode addr_mode with
  | some entry => .ok entry.byte
  | none => .error .invalidAddressingMode

/-- `Assembler::encode_instruction`.  The addressing mode is classified
from the operand (absent operand ⇒ Implied for *every* opcode), the opcode
byte is looked up, and the operand bytes are produced by re-parsing the
operand's display string exactly as the source does.  Relative operands
emit a `0x00` placeholder and record `(pc, label, true)`. -/
def encode_instruction (ast : Ast) (fuel : Nat) (st : Asm) (instr : Instruction) :
    Except AsmError (List Nat × Asm) :=
  let addr_mode := match instr.operand with
    | some operand => operand.get_addressing_mode instr.opcode
    | none => AddressingMode.Implied
  match get_opcode_byte instr.opcode addr_mode with
  | .error e => .error e
  | .ok opcode_byte =>
    match instr.operand with
    | none => .ok ([opcode_byte], st)
    | some operand =>
      match addr_mode with
      | .Implied | .Accumulator => .ok ([opcode_byte], st)
      | .Immediate =>
        match parse_value ast fuel st (dropLeadingChar '#' operand.toString) with
        | .error e => .error e
        | .ok (value, st1) =>
          if value > 0xFF then .error .sourceLineError
          else .ok ([opcode_byte, value % 256], st1)
      | .ZeroPage | .ZeroPageX | .ZeroPageY =>
        match parse_value ast fuel st (firstCommaField operand.toString) with
        | .error e => .error e
        | .ok (value, st1) =>
          if value > 0xFF then .error .sourceLineError
          else .ok ([opcode_byte, value % 256], st1)
      | .Absolute | .AbsoluteX | .AbsoluteY =>
        match parse_value ast fuel st (firstCommaField operand.toString) with
        | .error e => .error e
        | .ok (value, st1) =>
          if value > 0xFFFF then .error .sourceLineError
          else .ok ([opcode_byte, value % 256, value / 256 % 256], st1)
      | .Indirect =>
        match parse_value ast fuel st
            (dropTrailingChar ')' (dropLeadingChar '(' operand.toString)) with
        | .error e => .error e
        | .ok (value, st1) =>
          if value > 0xFFFF then .error .sourceLineError
          else .ok ([opcode_byte, value % 256, value / 256 % 256], st1)
      | .IndexedIndirect | .IndirectIndexed =>
        let s := operand.toString
        let value_str := if s.any (fun x => x == ',') then firstCommaField (dropLeadingChar '(' s)
          else dropTrailingChar ')' (dropLeadingChar '(' s)
        match parse_value ast fuel st value_str with
        | .error e => .error e
        | .ok (value, st1) =>
          if value > 0xFF then .error .sourceLineError
          else .ok ([opcode_byte, value % 256], st1)
      | .Relative =>
        .ok ([opcode_byte, 0],
          { st with unresolved_refs := st.unresolved_refs ++ [(st.pc, operand.toString, true)] })

/-- The directive loop of `Assembler::resolve_labels`: only `org` acts,
parsing its argument and resetting both `origin` and `pc`. -/
def resolveLabelsDirs (ast : Ast) (fuel : Nat) : Asm → List Directive → Except AsmError Asm
  | st, [] => .ok st
  | st, d :: rest =>
    if d.name = str "org" then
      match parse_value ast fuel st d.value with
      | .error e => .error e
      | .ok (value, st1) =>
        resolveLabelsDirs ast fuel { st1 with origin := value, pc := value } rest
    else resolveLabelsDirs ast fuel st rest

/-- `Assembler::resolve_labels` (pass 1): set `pc := origin`, process the
`org` directives, then bind **every** label name to the current `pc` — the
instruction-size loop that follows only advances `pc` after all the labels
are already bound. -/
def resolve_labels (ast : Ast) (fuel : Nat) (st : Asm) : Except AsmError Asm :=
  match resolveLabelsDirs ast fuel { st with pc := st.origin } ast.directives with
  | .error e => .error e
  | .ok st1 =>
    let st2 := ast.labels.foldl (fun s name => { s with labels := mapInsert s.labels name s.pc }) st1
    .ok (ast.instructions.foldl (fun s i => { s with pc := s.pc + instruction_size i }) st2)

/-- Push the UTF-8 bytes of `text` (`text.bytes()` loops of the `.byte`
string and `.text`/`.ascii` cases of `process_directive`).  The model is
byte-exact for ASCII text, the only kind the claims exercise. -/
def pushTextBytes (st : Asm) (text : Str) : Asm :=
  text.foldl (fun s c => { s with binary := s.binary ++ [c.toNat % 256], pc := s.pc + 1 }) st

/-- The numeric-list loop of the `.byte`/`.db` case of `process_directive`. -/
def emitBytes (ast : Ast) (fuel : Nat) : Asm → List Str → Except AsmError Asm
  | st, [] => .ok st
  | st, v :: rest =>
    match parse_value ast fuel st v with
    | .error e => .error e
    | .ok (value, st1) =>
      if value > 0xFF then .error .sourceLineError
      else emitBytes ast fuel
        { st1 with binary := st1.binary ++ [value % 256], pc := st1.pc + 1 } rest

/-- The list loop of the `.word`/`.dw` case of `process_directive`
(little-endian emission). -/
def emitWords (ast : Ast) (fuel : Nat) : Asm → List Str → Except AsmError Asm
  | st, [] => .ok st
  | st, v :: rest =>
    match parse_value ast fuel st v with
    | .error e => .error e
    | .ok (value, st1) =>
      if value > 0xFFFF then .error .sourceLineError
      else emitWords ast fuel
        { st1 with binary := st1.binary ++ [value % 256, value / 256 % 256], pc := st1.pc + 2 } rest

/-- `Assembler::process_directive`. -/
def process_directive (ast : Ast) (fuel : Nat) (st : Asm) (d : Directive) :
    Except AsmError Asm :=
  if d.name = str "org" then
    match parse_value ast fuel st d.value with
    | .error e => .error e
    | .ok (value, st1) => .ok { st1 with origin := value, pc := value }
  else if d.name = str "byte" ∨ d.name = str "db" then
    if startsWithChar '"' d.value ∧ endsWithChar '"' d.value then
      .ok (pushTextBytes st ((d.value.drop 1).dropLast))
    else
      emitBytes ast fuel st ((splitOnChar ',' d.value).map trimChars)
  else if d.name = str "word" ∨ d.name = str "dw" then
    emitWords ast fuel st ((splitOnChar ',' d.value).map trimChars)
  else if d.name = str "text" ∨ d.name = str "ascii" then
    .ok (pushTextBytes st
      (if startsWithChar '"' d.value ∧ endsWithChar '"' d.value then (d.value.drop 1).dropLast
       else d.value))
  else .error .unknownDirective

/-- The directive loop of `Assembler::generate_code`. -/
def generateDirs (ast : Ast) (fuel : Nat) : Asm → List Directive → Except AsmError Asm
  | st, [] => .ok st
  | st, d :: rest =>
    match process_directive ast fuel st d with
    | .error e => .error e
    | .ok st1 => generateDirs ast fuel st1 rest

/-- The instruction loop of `Assembler::generate_code`: encode, append the
bytes, advance `pc` by their count. -/
def generateInstrs (ast : Ast) (fuel : Nat) : Asm → List Instruction → Except AsmError Asm
  | st, [] => .ok st
  | st, i :: rest =>
    match encode_instruction ast fuel st i with
    | .error e => .error e
    | .ok (bytes, st1) =>
      generateInstrs ast fuel
        { st1 with binary := st1.binary ++ bytes, pc := st1.pc + bytes.length } rest

/-- `Assembler::generate_code` (pass 2): reset `pc := origin` and
`binary := []`, emit all directives first, then all instructions. -/
def generate_code (ast : Ast) (fuel : Nat) (st : Asm) : Except AsmError Asm :=
  match generateDirs ast fuel { st with pc := st.origin, binary := [] } ast.directives with
  | .error e => .error e
  | .ok st1 => generateInstrs ast fuel st1 ast.instructions

/-- The reference loop of `Assembler::resolve_references`.  A reference to
a known label whose position is at or beyond the end of the binary is
silently skipped; a relative reference is range-checked on the full signed
delta and its two's-complement byte is written at `position+1` when that
index exists; an absolute reference writes the low byte at `position+1`
and the high byte at `position+2`, each under its own bounds guard.
Unknown labels are collected into `remaining`. -/
def resolveRefsLoop (labels : List (Str × Nat)) :
    List Nat → List (Nat × Str × Bool) → List (Nat × Str × Bool) →
    Except AsmError (List Nat × List (Nat × Str × Bool))
  | binary, remaining, [] => .ok (binary, remaining)
  | binary, remaining, (pos, label, is_relative) :: rest =>
    match mapGet labels label with
    | some addr =>
      if pos ≥ binary.length then
        resolveRefsLoop labels binary remaining rest
      else if is_relative then
        let delta : Int := (addr : Int) - ((pos : Int) + 2)
        if delta > 127 ∨ delta < -128 then .error .valueOutOfRange
        else
          let binary1 :=
            if pos + 1 < binary.length then binary.set (pos + 1) ((delta % 256).toNat) else binary
          resolveRefsLoop labels binary1 remaining rest
      else
        let binary1 :=
          if pos + 1 < binary.length then binary.set (pos + 1) (addr % 256) else binary
        let binary2 :=
          if pos + 2 < binary1.length then binary1.set (pos + 2) (addr / 256 % 256) else binary1
        resolveRefsLoop labels binary2 remaining rest
    | none => resolveRefsLoop labels binary (remaining ++ [(pos, label, is_relative)]) rest

/-- `Assembler::resolve_references` (pass 3): run the loop over the pending
references; any reference still unresolved afterwards is fatal
(`UnknownLabel`). -/
def resolve_references (st : Asm) : Except AsmError Asm :=
  match resolveRefsLoop st.labels st.binary [] st.unresolved_refs with
  | .error e => .error e
  | .ok (binary, remaining) =>
    if remaining = [] then .ok { st with binary := binary, unresolved_refs := remaining }
    else .error .unknownLabel

/-- `Assembler::assemble`: the three passes in order.  The source's
`while !unresolved_refs.is_empty() && pass_count < 5` retry loop is dead
code — `resolve_references` already returns `Err(UnknownLabel)` whenever
references remain, and `?` propagates it — so the model runs the pass
once. -/
def assemble (fuel : Nat) (ast : Ast) : Except AsmError (List Nat) :=
  match resolve_labels ast fuel Asm.new with
  | .error e => .error e
  | .ok st1 =>
    match generate_code ast fuel st1 with
    | .error e => .error e
    | .ok st2 =>
      match resolve_references st2 with
      | .error e => .error e
      | .ok st3 => .ok st3.binary

/-- Ghost view of the patching pass: the ordered list of `(index, byte)`
writes that `resolveRefsLoop` performs, computed from the label map, the
(constant) binary length and the pending references.  `patchWrites` mirrors
the loop's guards exactly; `resolve_references_patch_writes` proves the
correspondence with the real pass. -/
def patchWrites (labels : List (Str × Nat)) (binLen : Nat) :
    List (Nat × Str × Bool) → List (Nat × Nat)
  | [] => []
  | (pos, label, is_relative) :: rest =>
    match mapGet labels label with
    | some addr =>
      if pos ≥ binLen then patchWrites labels binLen rest
      else if is_relative then
        (if pos + 1 < binLen then
          [(pos + 1, ((((addr : Int) - ((pos : Int) + 2)) % 256).toNat))] else []) ++
        patchWrites labels binLen rest
      else
        ((if pos + 1 < binLen then [(pos + 1, addr % 256)] else []) ++
         (if pos + 2 < binLen then [(pos + 2, addr / 256 % 256)] else [])) ++
        patchWrites labels binLen rest
    | none => patchWrites labels binLen rest

/-- Apply a list of `(index, byte)` writes to a byte list in order. -/
def applyWrites (ws : List (Nat × Nat)) (l : List Nat) : List Nat :=
  ws.foldl (fun acc iv => acc.set iv.1 iv.2) l

/-- The `Ast` produced for the spec's branch scenario
`.org $1000` / `bne skip` / `nop` / `skip: rts`. -/
def c1Ast : Ast :=
  ⟨[⟨.BNE, some (.Address (str "skip"))⟩, ⟨.NOP, none⟩, ⟨.RTS, none⟩],
   [str "skip"], [], [⟨str "org", str "$1000"⟩]⟩

/-- The `Ast` for `.org $1000` / `a: nop` / `b: rts`: label `a` sits at the
origin and label `b` one byte later. -/
def c2Ast : Ast :=
  ⟨[⟨.NOP, none⟩, ⟨.RTS, none⟩], [str "a", str "b"], [], [⟨str "org", str "$1000"⟩]⟩

/-- A pre-patching assembler state with one in-buffer relative reference:
two emitted bytes `D0 00`, label `skip` bound to 1, and the pending
reference recorded at position 0. -/
def c3St : Asm := ⟨0, [0xD0, 0x00], [(str "skip", 1)], [(0, str "skip", true)], 0x1000⟩

/-- The state `resolve_references` produces from `c3St`: the placeholder at
index 1 is patched to `0xFF` (delta −1 as a signed byte). -/
def c3StP : Asm := ⟨0, [0xD0, 0xFF], [(str "skip", 1)], [], 0x1000⟩

/-- The `Ast` for `.org $1000`, 43 copies of `lda $1234` (129 bytes) and a
final `bne back`, with the label `back` defined (and bound to the origin by
pass 1), so the branch target is 131 bytes behind the branch operand. -/
def c4Ast : Ast :=
  ⟨List.replicate 43 ⟨.LDA, some (.Address (str "$1234"))⟩ ++
     [⟨.BNE, some (.Address (str "back"))⟩],
   [str "back"], [], [⟨str "org", str "$1000"⟩]⟩

/-- The bytes the model emits for `c4Ast`: 43 absolute loads and the
`bne` with its never-patched `00` placeholder. -/
def c4Bytes : List Nat := (List.replicate 43 [0xAD, 0x34, 0x12]).flatten ++ [0xD0, 0x00]

/-- The `Ast` for a single `lda 10`: a decimal literal below 256. -/
def c5Ast : Ast := ⟨[⟨.LDA, some (.Address (str "10"))⟩], [], [], []⟩

/-- The `Ast` built by feeding `foo: nop` and `foo: rts` through
`Ast::add_label`/`Ast::add_instruction`: the duplicate label definition
collapses to a single key. -/
def c6Ast : Ast :=
  (((Ast.empty.add_label (str "foo")).add_instruction ⟨.NOP, none⟩).add_label
      (str "foo")).add_instruction ⟨.RTS, none⟩

/-- An `Ast` whose constant table is the circular chain
`.const A B` / `.const B A`. -/
def c7Ast : Ast := ⟨[], [], [(str "A", str "B"), (str "B", str "A")], []⟩

/-- The `Ast` for `.org $1000` / `lda #$41` / `.byte 1` — in the source
text the instruction line precedes the data directive. -/
def c8Ast : Ast :=
  ⟨[⟨.LDA, some (.Immediate (str "$41"))⟩], [], [],
   [⟨str "org", str "$1000"⟩, ⟨str "byte", str "1"⟩]⟩

/-- The directive-phase state `generate_code` reaches on `c8Ast` before any
instruction is encoded: the `.byte 1` payload is already in the binary. -/
def c8StD : Asm := ⟨0x1001, [0x01], [], [], 0x1000⟩

/-- The final state `generate_code` reaches on `c8Ast`. -/
def c8StF : Asm := ⟨0x1003, [0x01, 0xA9, 0x41], [], [], 0x1000⟩

/-- The `Ast` for a bare `asl` with no operand. -/
def c9Ast : Ast := ⟨[⟨.ASL, none⟩], [], [], []⟩

/-- `parse_value` never touches the emitted binary: a successful parse
returns a state with the same `binary` (only `unresolved_refs` may grow). -/
theorem parse_value_binary (ast : Ast) :
    ∀ fuel st v n st', parse_value ast fuel st v = .ok (n, st') → st'.binary = st.binary := by
  intro fuel
  induction fuel with
  | zero => intro st v n st' h; exact absurd h (by simp [parse_value])
  | succ k ih =>
    intro st v n st' h
    unfold parse_value at h
    repeat' (first
      | (cases h <;> rfl)
      | exact ih _ _ _ _ h
      | split at h)


/-- `encode_instruction` never touches the emitted binary either: the bytes
it produces are returned to the caller, which appends them. -/
theorem encode_instruction_binary (ast : Ast) (fuel : Nat) (st : Asm) (i : Instruction)
    (bytes : List Nat) (st' : Asm)
    (h : encode_instruction ast fuel st i = .ok (bytes, st')) : st'.binary = st.binary := by
  obtain ⟨opcode, operand⟩ := i
  cases operand with
  | none =>
    unfold encode_instruction at h
    dsimp only at h
    split at h
    · cases h
    · cases h; rfl
  | some op =>
    unfold encode_instruction at h
    dsimp only at h
    cases haddr : op.get_addressing_mode opcode <;> rw [haddr] at h <;> dsimp only at h <;>
      all_goals
        split at h <;>
          first
            | (cases h <;> rfl)
            | (split at h <;>
                first
                  | (cases h <;> rfl)
                  | (rename_i value st1 heq
                     split at h <;> cases h
                     exact parse_value_binary ast _ _ _ _ _ heq))


/-- The instruction loop of `generate_code` only appends bytes: the binary
it starts from is a prefix of the binary it ends with. -/
theorem generateInstrs_prefix (ast : Ast) (fuel : Nat) :
    ∀ l st st', generateInstrs ast fuel st l = .ok st' →
      ∃ rest, st'.binary = st.binary ++ rest := by
  intro l
  induction l with
  | nil =>
    intro st st' h
    cases h
    exact ⟨[], (List.append_nil _).symm⟩
  | cons i restL ih =>
    intro st st' h
    unfold generateInstrs at h
    split at h
    · cases h
    · rename_i bytes st1 heq
      obtain ⟨r, hr⟩ := ih _ _ h
      refine ⟨bytes ++ r, ?_⟩
      rw [hr]
      show (st1.binary ++ bytes) ++ r = st.binary ++ (bytes ++ r)
      rw [encode_instruction_binary ast fuel st i bytes st1 heq, List.append_assoc]


/-- `applyWrites` distributes over write-list concatenation. -/
theorem applyWrites_append (a b : List (Nat × Nat)) (l : List Nat) :
    applyWrites (a ++ b) l = applyWrites b (applyWrites a l) := by
  simp [applyWrites, List.foldl_append]


/-- In-place writes keep the binary's length. -/
theorem applyWrites_length (ws : List (Nat × Nat)) : ∀ l, (applyWrites ws l).length = l.length := by
  induction ws with
  | nil => intro l; rfl
  | cons w rest ih =>
    intro l
    show (applyWrites rest (l.set w.1 w.2)).length = l.length
    rw [ih, List.length_set]


/-- Every write recorded by `patchWrites` targets an index strictly inside
the binary. -/
theorem patchWrites_lt (labels : List (Str × Nat)) (binLen : Nat) :
    ∀ refs iv, iv ∈ patchWrites labels binLen refs → iv.1 < binLen := by
  intro refs
  induction refs with
  | nil => intro iv h; simp [patchWrites] at h
  | cons r rest ih =>
    obtain ⟨pos, label, is_rel⟩ := r
    intro iv h
    unfold patchWrites at h
    split at h
    · split at h
      · exact ih iv h
      · split at h
        · rcases List.mem_append.1 h with h1 | h1
          · split at h1
            · rename_i hlt
              rw [List.mem_singleton] at h1
              subst h1
              exact hlt
            · simp at h1
          · exact ih iv h1
        · rcases List.mem_append.1 h with h1 | h1
          · rcases List.mem_append.1 h1 with h2 | h2
            · split at h2
              · rename_i hlt
                rw [List.mem_singleton] at h2
                subst h2
                exact hlt
              · simp at h2
            · split at h2
              · rename_i hlt
                rw [List.mem_singleton] at h2
                subst h2
                exact hlt
              · simp at h2
          · exact ih iv h1
    · exact ih iv h


/-- Correspondence of the patching loop with its ghost write list: a
successful `resolveRefsLoop` run returns exactly the original binary with
`patchWrites` applied. -/
theorem resolveRefsLoop_writes (labels : List (Str × Nat)) :
    ∀ refs binary remaining out,
      resolveRefsLoop labels binary remaining refs = .ok out →
      out.1 = applyWrites (patchWrites labels binary.length refs) binary := by
  intro refs
  induction refs with
  | nil =>
    intro binary remaining out h
    cases h
    rfl
  | cons r rest ih =>
    intro binary remaining out h
    obtain ⟨pos, label, is_rel⟩ := r
    unfold resolveRefsLoop at h
    unfold patchWrites
    split at h
    case h_1 addr hm =>
      split at h
      · rename_i hge
        rw [if_pos hge]
        exact ih binary remaining out h
      · rename_i hge
        rw [if_neg hge]
        dsimp only at h
        split at h
        · rename_i hrel
          rw [if_pos hrel]
          split at h
          · cases h
          · rw [applyWrites_append]
            have hlen : (if pos + 1 < binary.length then
                binary.set (pos + 1) ((((addr : Int) - ((pos : Int) + 2)) % 256).toNat)
                else binary).length = binary.length := by
              split <;> simp [List.length_set]
            have hrec := ih _ remaining out h
            rw [hlen] at hrec
            rw [hrec]
            congr 1
            split <;> rfl
        · rename_i hrel
          rw [if_neg hrel]
          have hl1 : (if pos + 1 < binary.length then binary.set (pos + 1) (addr % 256)
              else binary).length = binary.length := by
            split <;> simp [List.length_set]
          have hl2 : (if pos + 2 < (if pos + 1 < binary.length then
                  binary.set (pos + 1) (addr % 256) else binary).length then
                (if pos + 1 < binary.length then binary.set (pos + 1) (addr % 256)
                  else binary).set (pos + 2) (addr / 256 % 256)
                else if pos + 1 < binary.length then binary.set (pos + 1) (addr % 256)
                  else binary).length = binary.length := by
            split <;> split <;> simp_all [List.length_set]
          rw [applyWrites_append, applyWrites_append]
          have hrec := ih _ remaining out h
          rw [hl2] at hrec
          rw [hrec]
          congr 1
          rw [hl1]
          split <;> split <;> rfl
    case h_2 hm =>
      exact ih binary (remaining ++ [(pos, label, is_rel)]) out h

/-- C1.  The spec's scenario `.org $1000` / `bne skip` / `nop` /
`skip: rts` is claimed to assemble to `D0 01 EA 60`.  The code instead
returns `D0 00 EA 60`: the relative reference is recorded at the absolute
pc `$1000`, `resolve_references` compares that against the 4-byte buffer
and silently skips the patch, so the placeholder operand byte survives
(and the label itself resolves to the origin, not to the `rts`). -/
theorem bne_skip_program_leaves_placeholder :
    assemble 100 c1Ast = .ok [0xD0, 0x00, 0xEA, 0x60] := rfl

/-- C2.  In pass 1 every label is bound to the same pc — the origin — because
`resolve_labels` inserts all label names before its instruction-size loop
advances the pc: in `.org $1000` / `a: nop` / `b: rts` both `a` and `b` are
bound to `$1000`, not `b` to `$1001` as the claim requires. -/
theorem labels_bound_to_origin :
    (resolve_labels c2Ast 100 Asm.new).map
        (fun st => (mapGet st.labels (str "a"), mapGet st.labels (str "b"))) =
      .ok (some 0x1000, some 0x1000) := rfl

set_option maxRecDepth 100000 in
/-- C4.  A branch whose defined target is 131 bytes out of range assembles
without any `ValueOutOfRange` error: the reference's recorded position is
the absolute pc `$1081`, which exceeds the 131-byte buffer, so the range
check is never reached and the placeholder `00` is emitted as the operand. -/
theorem out_of_range_branch_assembles :
    assemble 100 c4Ast = .ok c4Bytes ∧ (0x1000 : Int) - ((0x1081 : Int) + 2) < -128 :=
  ⟨rfl, by decide⟩

/-- C5 counterexample.  `lda 10` has a known value (10) that fits in one
byte and `(LDA, ZeroPage)` is in the opcode table (byte `$A5`), yet the
classifier picks Absolute — the choice looks only at the operand text — and
the instruction encodes as `AD 0A 00` instead of the claimed zero-page
form. -/
theorem decimal_operand_encoded_absolute :
    (Operand.Address (str "10")).get_addressing_mode .LDA = .Absolute ∧
    get_opcode_byte .LDA .ZeroPage = .ok 0xA5 ∧
    (10 : Nat) ≤ 0xFF ∧
    assemble 100 c5Ast = .ok [0xAD, 0x0A, 0x00] :=
  ⟨rfl, rfl, by decide, rfl⟩

/-- C6.  A program with two `foo:` definitions does not produce
`DuplicateLabel`: `Ast::add_label` is a plain `HashMap` insert, so the
second definition silently collapses into the first and the program
assembles successfully (`AssemblerError::DuplicateLabel` is declared in the
source but never constructed). -/
theorem duplicate_label_not_rejected :
    assemble 100 c6Ast = .ok [0xEA, 0x60] ∧ c6Ast.labels = [str "foo"] := ⟨rfl, rfl⟩

/-- C7.  Evaluating the circular constant chain `A ↦ B ↦ A` never
terminates: for every fuel bound the model still reports exhaustion, i.e.
the source's unbounded recursion in `parse_value` cycles forever instead of
detecting the loop. -/
theorem circular_constants_never_return :
    ∀ fuel, parse_value c7Ast fuel Asm.new (str "A") = .error .outOfFuel ∧
      parse_value c7Ast fuel Asm.new (str "B") = .error .outOfFuel := by
  intro fuel
  induction fuel with
  | zero => exact ⟨rfl, rfl⟩
  | succ n ih =>
    exact ⟨(show parse_value c7Ast (n + 1) Asm.new (str "A") =
              parse_value c7Ast n Asm.new (str "B") from rfl).trans ih.2,
           (show parse_value c7Ast (n + 1) Asm.new (str "B") =
              parse_value c7Ast n Asm.new (str "A") from rfl).trans ih.1⟩

/-- C8 counterexample.  For the source `.org $1000` / `lda #$41` /
`.byte 1` the instruction line precedes the data line, yet the output is
`01 A9 41`: `generate_code` emits every directive before any instruction,
so the later line's byte comes first. -/
theorem directive_bytes_precede_instruction_bytes :
    assemble 100 c8Ast = .ok [0x01, 0xA9, 0x41] := rfl

/-- C9.  A bare `asl` is classified as Implied — `encode_instruction` maps
an absent operand to Implied for every opcode — and the table has no
`(ASL, Implied)` entry, so encoding fails with `InvalidAddressingMode`
instead of emitting the one-byte accumulator opcode `0A` (whose table entry
exists but is unreachable). -/
theorem bare_asl_rejected :
    assemble 100 c9Ast = .error .invalidAddressingMode ∧
    get_opcode_byte .ASL .Accumulator = .ok 0x0A ∧
    get_opcode_byte .ASL .Implied = .error .invalidAddressingMode :=
  ⟨rfl, rfl, rfl⟩

/-- C10.  Every entry of the opcode table carries a size that agrees with
the per-mode sizing of `instruction_size`: 1 for Implied/Accumulator, 2 for
the one-operand-byte modes, 3 for the absolute family and Indirect. -/
theorem opcode_table_sizes_consistent :
    ∀ e ∈ build_opcode_table, e.2.size = mode_size e.1.2 := by
  set_option maxRecDepth 100000 in decide

/-- Witness for C10 at the table's first row. -/
theorem opcode_table_sizes_consistent_witness :
    (((Opcode.LDA, AddressingMode.Immediate), (⟨0xA9, 2, 2⟩ : OpcodeEntry)) :
        (Opcode × AddressingMode) × OpcodeEntry).2.size = mode_size .Immediate :=
  opcode_table_sizes_consistent _ (by set_option maxRecDepth 100000 in decide)

/-- C3 (amended).  Whenever `resolve_references` succeeds, the new binary
is the old one with exactly the `patchWrites` write list applied, the
length is unchanged, and every one of those writes lands at an index
strictly below `binary.len()` — references whose recorded position falls
outside the buffer are skipped, not patched. -/
theorem patched_refs_write_within_binary (st st' : Asm)
    (h : resolve_references st = .ok st') :
    st'.binary = applyWrites (patchWrites st.labels st.binary.length st.unresolved_refs) st.binary
    ∧ st'.binary.length = st.binary.length
    ∧ ∀ iv ∈ patchWrites st.labels st.binary.length st.unresolved_refs,
        iv.1 < st.binary.length := by
  unfold resolve_references at h
  split at h
  · cases h
  · rename_i binary remaining heq
    split at h
    · cases h
      have hw := resolveRefsLoop_writes st.labels st.unresolved_refs st.binary []
        (binary, remaining) heq
      refine ⟨hw, ?_, patchWrites_lt st.labels st.binary.length st.unresolved_refs⟩
      show binary.length = st.binary.length
      rw [show binary = applyWrites (patchWrites st.labels st.binary.length st.unresolved_refs)
            st.binary from hw]
      exact applyWrites_length _ _
    · cases h


/-- C3 counterexample.  In the assembly run of `.org $1000` / `bne skip` /
`nop` / `skip: rts`, the pending reference reaching the patching pass is
recorded at position 4096 while the emitted buffer holds 4 bytes: the
recorded position of a pending reference is *not* a valid offset into the
emitted buffer. -/
theorem pending_ref_position_not_in_buffer :
    ((resolve_labels c1Ast 100 Asm.new).bind (generate_code c1Ast 100)).map
        (fun st => (st.unresolved_refs, st.binary.length)) =
      .ok ([(4096, str "skip", true)], 4) ∧ ¬ (4096 < 4) :=
  ⟨rfl, by decide⟩


/-- Witness for C3 at a concrete in-buffer reference. -/
theorem patched_refs_write_within_binary_witness :
    c3StP.binary =
      applyWrites (patchWrites c3St.labels c3St.binary.length c3St.unresolved_refs) c3St.binary
    ∧ c3StP.binary.length = c3St.binary.length
    ∧ ∀ iv ∈ patchWrites c3St.labels c3St.binary.length c3St.unresolved_refs,
        iv.1 < c3St.binary.length :=
  patched_refs_write_within_binary c3St c3StP rfl


/-- C5 (amended).  For non-branch opcodes the Address/IndexedX/IndexedY
mode choice is purely syntactic: zero-page exactly when the operand text
starts with `$` and is at most 3 characters long; the operand's value and
the opcode table play no part. -/
theorem mode_choice_is_syntactic :
    ∀ (op : Opcode) (s : Str), op.is_branch = false →
      (Operand.Address s).get_addressing_mode op =
        (if startsWithChar '$' s ∧ s.length ≤ 3 then .ZeroPage else .Absolute) ∧
      (Operand.IndexedX s).get_addressing_mode op =
        (if startsWithChar '$' s ∧ s.length ≤ 3 then .ZeroPageX else .AbsoluteX) ∧
      (Operand.IndexedY s).get_addressing_mode op =
        (if startsWithChar '$' s ∧ s.length ≤ 3 then .ZeroPageY else .AbsoluteY) := by
  intro op s h
  refine ⟨?_, ?_, ?_⟩ <;> simp [Operand.get_addressing_mode, h]


/-- Witness for C5's amended classifier rule at `lda 10`. -/
theorem mode_choice_is_syntactic_witness :
    (Operand.Address (str "10")).get_addressing_mode .LDA =
      (if startsWithChar '$' (str "10") ∧ (str "10").length ≤ 3 then .ZeroPage else .Absolute) ∧
    (Operand.IndexedX (str "10")).get_addressing_mode .LDA =
      (if startsWithChar '$' (str "10") ∧ (str "10").length ≤ 3 then .ZeroPageX else .AbsoluteX) ∧
    (Operand.IndexedY (str "10")).get_addressing_mode .LDA =
      (if startsWithChar '$' (str "10") ∧ (str "10").length ≤ 3 then .ZeroPageY else .AbsoluteY) :=
  mode_choice_is_syntactic .LDA (str "10") rfl


/-- C8 (amended).  `generate_code` emits the bytes of all directives
before the bytes of any instruction: the binary after the directive phase
is a prefix of the final binary, whatever the source interleaving was. -/
theorem generate_code_emits_directives_first (ast : Ast) (fuel : Nat) (st stD stF : Asm)
    (hdirs : generateDirs ast fuel { st with pc := st.origin, binary := [] } ast.directives = .ok stD)
    (hgen : generate_code ast fuel st = .ok stF) :
    ∃ rest, stF.binary = stD.binary ++ rest := by
  unfold generate_code at hgen
  simp only [hdirs] at hgen
  exact generateInstrs_prefix ast fuel ast.instructions stD stF hgen


/-- Witness for C8 on the `.org $1000` / `lda #$41` / `.byte 1` program. -/
theorem generate_code_emits_directives_first_witness :
    ∃ rest, c8StF.binary = c8StD.binary ++ rest :=
  generate_code_emits_directives_first c8Ast 10 Asm.new c8StD c8StF rfl rfl

end Rusm
